import Mathlib

/-!
Verification of the outbound WhatsApp message queue
(`src/services/messageQueue.ts`, class `MessageQueue`).

The queue state is the ordered list of `QueuedMessage` records.  Timestamps
(`Date` values in the source) are modelled as milliseconds since the epoch,
i.e. `Nat`; `Date` comparison in the source is numeric comparison of those
milliseconds.  Each queue operation of the source is translated to a pure
function on the list; the dispatcher's per-message delivery step
(`processMessage`) is split into its synchronous entry (`processStart`) and
the application of the transport outcome (`applyOutcome`), exactly the two
phases separated by `await` in the source.
-/

/-- `priority: 'low' | 'normal' | 'high' | 'urgent'`. -/
inductive Priority where
  | low
  | normal
  | high
  | urgent
deriving DecidableEq

/-- `status: 'pending' | 'sending' | 'sent' | 'failed' | 'cancelled'`. -/
inductive Status where
  | pending
  | sending
  | sent
  | failed
  | cancelled
deriving DecidableEq

/-- `type: 'text' | 'media'`. -/
inductive MessageType where
  | text
  | media
deriving DecidableEq

/-- The `QueuedMessage` interface.  The opaque `metadata` bag is not
interpreted by any queue operation and is omitted; the recipient field
named `to` in the source is named `dest` here (`to` is reserved in Lean). -/
structure QueuedMessage where
  id : String
  dest : String
  message : String
  type : MessageType
  mediaUrl : Option String
  mediaType : Option String
  caption : Option String
  priority : Priority
  status : Status
  attempts : Nat
  maxAttempts : Nat
  createdAt : Nat
  scheduledFor : Option Nat
  customerId : Option Nat
  ticketId : Option Nat
deriving DecidableEq

/-- The `QueueStats` interface. -/
structure QueueStats where
  pending : Nat
  sending : Nat
  sent : Nat
  failed : Nat
  total : Nat
deriving DecidableEq

/-- `const priorityOrder = { urgent: 0, high: 1, normal: 2, low: 3 }`. -/
def priorityOrder : Priority → Nat
  | Priority.urgent => 0
  | Priority.high => 1
  | Priority.normal => 2
  | Priority.low => 3

/-- `insertByPriority`: scan from the front; at each resident, if both the
new message and the resident carry `scheduledFor`, stop when the new
message's schedule is strictly earlier; otherwise stop when the new
message's numeric priority is strictly smaller; splice at the stop index,
else append. -/
def insertByPriority (msg : QueuedMessage) : List QueuedMessage → List QueuedMessage
  | [] => [msg]
  | x :: xs =>
    match msg.scheduledFor, x.scheduledFor with
    | some s, some t =>
      if s < t then msg :: x :: xs else x :: insertByPriority msg xs
    | _, _ =>
      if priorityOrder msg.priority < priorityOrder x.priority then msg :: x :: xs
      else x :: insertByPriority msg xs

/-- `addMessage`: the enqueued record gets `status: 'pending'` and
`attempts: 0` and is placed by `insertByPriority`. -/
def addMessage (msg : QueuedMessage) (queue : List QueuedMessage) : List QueuedMessage :=
  insertByPriority { msg with status := Status.pending, attempts := 0 } queue

/-- `cancelMessage`: find the first message with the given id; if it exists
and is `pending`, set it to `cancelled` and return true, else return false
and change nothing. -/
def cancelMessage (messageId : String) : List QueuedMessage → Bool × List QueuedMessage
  | [] => (false, [])
  | msg :: rest =>
    if msg.id = messageId then
      if msg.status = Status.pending then
        (true, { msg with status := Status.cancelled } :: rest)
      else
        (false, msg :: rest)
    else
      let r := cancelMessage messageId rest
      (r.1, msg :: r.2)

/-- `getStats`: `total` is the store length; the four category counters are
incremented per message by a switch on `status` that has no `cancelled`
arm. -/
def getStats (queue : List QueuedMessage) : QueueStats :=
  { pending := queue.countP (fun msg => msg.status == Status.pending)
    sending := queue.countP (fun msg => msg.status == Status.sending)
    sent := queue.countP (fun msg => msg.status == Status.sent)
    failed := queue.countP (fun msg => msg.status == Status.failed)
    total := queue.length }

/-- `clearCompleted`: keep the messages whose status is not in
`['sent', 'failed', 'cancelled']`; return how many were dropped. -/
def clearCompleted (queue : List QueuedMessage) : Nat × List QueuedMessage :=
  let remaining := queue.filter
    (fun msg => ! [Status.sent, Status.failed, Status.cancelled].contains msg.status)
  (queue.length - remaining.length, remaining)

/-- Per-message effect of `retryFailed`: a message is reset to `pending`
with `attempts = 0` only when `status === 'failed' && attempts < maxAttempts`. -/
def retryResetMsg (msg : QueuedMessage) : QueuedMessage :=
  if msg.status = Status.failed ∧ msg.attempts < msg.maxAttempts then
    { msg with status := Status.pending, attempts := 0 }
  else
    msg

/-- `retryFailed`: apply the reset to every message, counting the resets. -/
def retryFailed (queue : List QueuedMessage) : Nat × List QueuedMessage :=
  (queue.countP (fun msg => msg.status == Status.failed && decide (msg.attempts < msg.maxAttempts)),
   queue.map retryResetMsg)

/-- The eligibility filter of `processQueue`:
`msg.status === 'pending' && (!msg.scheduledFor || msg.scheduledFor <= new Date())`. -/
def isEligible (now : Nat) (msg : QueuedMessage) : Bool :=
  msg.status == Status.pending &&
    (match msg.scheduledFor with
     | none => true
     | some t => decide (t ≤ now))

/-- The batch selected by one `processQueue` cycle: the eligible messages in
store order, of which `slice(0, 5)` is dispatched. -/
def selectBatch (now : Nat) (queue : List QueuedMessage) : List QueuedMessage :=
  (queue.filter (isEligible now)).take 5

/-- The outcome of one transport call as seen by `processMessage`:
the call returned `true`, returned `false`, or threw (the not-connected
check and transport errors both throw). -/
inductive SendOutcome where
  | success
  | returnedFalse
  | threw
deriving DecidableEq

/-- The body of `processMessage`'s `try` block after the status flip:
a thrown error surfaces as `Except.error`; otherwise the transport's
boolean result is returned. -/
def attemptSend (outcome : SendOutcome) : Except String Bool :=
  match outcome with
  | SendOutcome.success => Except.ok true
  | SendOutcome.returnedFalse => Except.ok false
  | SendOutcome.threw => Except.error "transport error"

/-- Synchronous entry of `processMessage`:
`message.status = 'sending'; message.attempts++`. -/
def processStart (msg : QueuedMessage) : QueuedMessage :=
  { msg with status := Status.sending, attempts := msg.attempts + 1 }

/-- The `catch` block of `processMessage`:
`failed` when `attempts >= maxAttempts`, else back to `pending`. -/
def handleFailure (msg : QueuedMessage) : QueuedMessage :=
  if msg.attempts ≥ msg.maxAttempts then { msg with status := Status.failed }
  else { msg with status := Status.pending }

/-- Resolution of one transport attempt on a message already in `sending`:
`success` sets `sent`; a `false` return raises an error inside the `try`
(`throw new Error('Falha ao enviar mensagem')`), so it reaches the same
`catch` block as a thrown transport error. -/
def applyOutcome (msg : QueuedMessage) (outcome : SendOutcome) : QueuedMessage :=
  match attemptSend outcome with
  | Except.ok true => { msg with status := Status.sent }
  | Except.ok false => handleFailure msg
  | Except.error _ => handleFailure msg

/-- One whole `processMessage` call on a message with a fixed transport
outcome: the synchronous entry followed by the resolution.  Total: every
thrown error is absorbed by the `catch` block. -/
def processMessage (msg : QueuedMessage) (outcome : SendOutcome) : QueuedMessage :=
  applyOutcome (processStart msg) outcome

/-- `const delay = Math.min(1000 * Math.pow(2, message.attempts - 1), 30000)`;
only evaluated after the increment, so `attempts ≥ 1` at every call site. -/
def backoffDelay (attempts : Nat) : Nat :=
  min (1000 * 2 ^ (attempts - 1)) 30000

/-- All per-message status/attempts mutations performed by the queue, as a
step relation: the dispatcher (or the backoff timer) picks up a `pending`
message (`processStart`), a transport attempt on a `sending` message
resolves (`applyOutcome`), a `pending` message is cancelled
(`cancelMessage`), or `retryFailed` visits the message (`retryResetMsg`,
a no-op unless its guard holds).  No other source operation mutates a
message. -/
inductive MsgStep : QueuedMessage → QueuedMessage → Prop
  | start (m : QueuedMessage) (h : m.status = Status.pending) :
      MsgStep m (processStart m)
  | resolve (m : QueuedMessage) (o : SendOutcome) (h : m.status = Status.sending) :
      MsgStep m (applyOutcome m o)
  | cancel (m : QueuedMessage) (h : m.status = Status.pending) :
      MsgStep m { m with status := Status.cancelled }
  | retryReset (m : QueuedMessage) :
      MsgStep m (retryResetMsg m)

/-- Terminal statuses per the spec glossary. -/
def terminalStatus (s : Status) : Prop :=
  s = Status.sent ∨ s = Status.failed ∨ s = Status.cancelled

/-- Per-message invariant maintained by every `MsgStep`. -/
def msgInv (m : QueuedMessage) : Prop :=
  1 ≤ m.maxAttempts ∧
  m.attempts ≤ m.maxAttempts ∧
  (m.status = Status.pending → m.attempts < m.maxAttempts) ∧
  (m.status = Status.failed → m.attempts = m.maxAttempts)

/-- A fresh enqueued text message, as built by `addMessage` from the UI
callers (which always pass `maxAttempts: 3`). -/
def mkMsg (ident : String) (p : Priority) (sched : Option Nat) : QueuedMessage :=
  { id := ident
    dest := "5585000000000"
    message := "hello"
    type := MessageType.text
    mediaUrl := none
    mediaType := none
    caption := none
    priority := p
    status := Status.pending
    attempts := 0
    maxAttempts := 3
    createdAt := 0
    scheduledFor := sched
    customerId := none
    ticketId := none }

/-- A message that exhausted its retry budget: `failed` with
`attempts = maxAttempts = 3`, the state every normally failed message is in. -/
def exhaustedFailedMsg : QueuedMessage :=
  { mkMsg "f1" Priority.normal none with status := Status.failed, attempts := 3 }

/-- The state of a fresh unscheduled message right after its first transport
attempt threw: `processMessage` has set it back to `pending` with
`attempts = 1`. -/
def failedOnceMsg : QueuedMessage :=
  processMessage (mkMsg "b1" Priority.normal none) SendOutcome.threw

/-- The placement test of the spec text, one compared resident at a time:
insert before this resident when both carry a schedule and the resident's
is strictly later, or, when either lacks one, when the resident's priority
is strictly lower (numerically greater). -/
def specInsertBefore (msg x : QueuedMessage) : Bool :=
  match msg.scheduledFor, x.scheduledFor with
  | some s, some t => decide (s < t)
  | _, _ => decide (priorityOrder msg.priority < priorityOrder x.priority)

/-- Modelled from the spec: placement directly before the first resident
passing `specInsertBefore`, else at the end. -/
def specInsert (msg : QueuedMessage) (q : List QueuedMessage) : List QueuedMessage :=
  q.takeWhile (fun x => ! specInsertBefore msg x) ++
    msg :: q.dropWhile (fun x => ! specInsertBefore msg x)

/-- Projection: the `catch` block never touches the attempts counter. -/
theorem handleFailure_attempts (msg : QueuedMessage) :
    (handleFailure msg).attempts = msg.attempts := by
  unfold handleFailure
  split <;> rfl

/-- Projection: the `catch` block leaves every field but `status` unchanged
and picks the status by the retry-budget test. -/
theorem handleFailure_status (msg : QueuedMessage) :
    (handleFailure msg).status =
      (if msg.attempts ≥ msg.maxAttempts then Status.failed else Status.pending) := by
  unfold handleFailure
  split <;> simp_all

/-- Each step of the front-to-back scan of `insertByPriority` stops exactly
when the spec's placement test accepts the compared resident. -/
theorem insertByPriority_cons (m x : QueuedMessage) (xs : List QueuedMessage) :
    insertByPriority m (x :: xs) =
      if specInsertBefore m x then m :: x :: xs else x :: insertByPriority m xs := by
  rcases hm : m.scheduledFor with _ | s <;> rcases hx : x.scheduledFor with _ | t <;>
    simp only [insertByPriority, specInsertBefore, hm, hx, decide_eq_true_eq]

/-- `insertByPriority` places the new message directly before the first
resident accepted by the spec's placement test, else appends. -/
theorem insertByPriority_eq_specInsert (m : QueuedMessage) (q : List QueuedMessage) :
    insertByPriority m q = specInsert m q := by
  induction q with
  | nil => rfl
  | cons x xs ih =>
    rw [insertByPriority_cons]
    unfold specInsert
    by_cases h : specInsertBefore m x = true
    · simp [h]
    · simp only [Bool.not_eq_true] at h
      simp [h, ih, specInsert]

/-- Claim C1: a `failed` message with `attempts = maxAttempts = 3` is left
untouched by `retryFailed` (count 0), because the guard
`attempts < maxAttempts` is false for it; the spec instead requires it to
become `pending` with `attempts = 0`. -/
theorem retryFailed_skips_exhausted :
    retryFailed [exhaustedFailedMsg] = (0, [exhaustedFailedMsg]) ∧
    exhaustedFailedMsg.status = Status.failed ∧
    exhaustedFailedMsg.attempts = 3 ∧
    exhaustedFailedMsg.maxAttempts = 3 := by
  decide

/-- Claim C2: after a fresh unscheduled message fails its first transport
attempt (at, say, millisecond 0), the computed backoff delay is 1000 ms,
yet the message is already `pending` and passes the dispatcher's
eligibility filter at millisecond 1, so `processQueue` selects it for
another transport attempt long before the delay has elapsed. -/
theorem backoff_not_enforced :
    failedOnceMsg.status = Status.pending ∧
    failedOnceMsg.attempts = 1 ∧
    backoffDelay failedOnceMsg.attempts = 1000 ∧
    1 < backoffDelay failedOnceMsg.attempts ∧
    isEligible 1 failedOnceMsg = true ∧
    selectBatch 1 [failedOnceMsg] = [failedOnceMsg] := by
  decide

/-- Claim C8: a transport call that throws is handled exactly like one that
returns `false`: the resulting message is identical, the attempt is counted,
and the message ends `failed` when the incremented counter reaches
`maxAttempts`, else back in `pending`; `processMessage` is a total function,
so no error escapes the per-message processing. -/
theorem throw_equiv_false_return (m : QueuedMessage) :
    processMessage m SendOutcome.threw = processMessage m SendOutcome.returnedFalse ∧
    (processMessage m SendOutcome.threw).attempts = m.attempts + 1 ∧
    (processMessage m SendOutcome.threw).status =
      (if m.attempts + 1 ≥ m.maxAttempts then Status.failed else Status.pending) := by
  refine ⟨rfl, ?_, ?_⟩
  · show (handleFailure (processStart m)).attempts = m.attempts + 1
    rw [handleFailure_attempts]
    rfl
  · show (handleFailure (processStart m)).status = _
    rw [handleFailure_status]
    rfl

/-- Claim C4: the scan of `insertByPriority` realises the spec's placement
rule (schedule comparison when both are scheduled, else priority, else
append), and the two spec scenarios follow: four unscheduled enqueues in
order low, urgent, normal, high list as urgent, high, normal, low; and of
two scheduled messages the earlier schedule comes first regardless of
priority. -/
theorem insert_order_spec :
    (∀ (m : QueuedMessage) (q : List QueuedMessage), insertByPriority m q = specInsert m q) ∧
    ((addMessage (mkMsg "m4" Priority.high none)
        (addMessage (mkMsg "m3" Priority.normal none)
          (addMessage (mkMsg "m2" Priority.urgent none)
            (addMessage (mkMsg "m1" Priority.low none) [])))).map (fun m => m.priority)
      = [Priority.urgent, Priority.high, Priority.normal, Priority.low]) ∧
    ((addMessage (mkMsg "B" Priority.urgent (some 5000))
        (addMessage (mkMsg "A" Priority.normal (some 10000)) [])).map (fun m => m.id)
      = ["B", "A"]) :=
  ⟨insertByPriority_eq_specInsert, by decide, by decide⟩

/-- The dropped-message count of `clearCompleted`, computed in the source as
`initialLength - keptLength`, equals the number of terminal messages. -/
theorem length_sub_filter_not (c : QueuedMessage → Bool) (q : List QueuedMessage) :
    q.length - (q.filter (fun m => ! c m)).length = q.countP c := by
  induction q with
  | nil => rfl
  | cons x xs ih =>
    have hle : (xs.filter (fun m => ! c m)).length ≤ xs.length := List.length_filter_le _ xs
    cases hx : c x <;> simp [List.filter_cons, List.countP_cons, hx] <;> omega

/-- Claim C6: `clearCompleted` returns the number of messages whose status
is sent, failed or cancelled, keeps exactly the others (in place), and a
second call with no intervening mutation removes nothing. -/
theorem sweepTerminal_spec :
    ∀ q : List QueuedMessage,
      (clearCompleted q).1 =
        q.countP (fun m => [Status.sent, Status.failed, Status.cancelled].contains m.status) ∧
      (∀ m : QueuedMessage, m ∈ (clearCompleted q).2 ↔
        m ∈ q ∧ [Status.sent, Status.failed, Status.cancelled].contains m.status = false) ∧
      clearCompleted (clearCompleted q).2 = (0, (clearCompleted q).2) := by
  intro q
  refine ⟨?_, ?_, ?_⟩
  · exact length_sub_filter_not
      (fun m => [Status.sent, Status.failed, Status.cancelled].contains m.status) q
  · intro m
    show m ∈ q.filter _ ↔ _
    rw [List.mem_filter]
    simp
  · have hall : ∀ a ∈ (clearCompleted q).2,
        (fun msg => ! [Status.sent, Status.failed, Status.cancelled].contains msg.status) a
          = true :=
      fun a ha => (List.mem_filter.mp ha).2
    show ((clearCompleted q).2.length -
            ((clearCompleted q).2.filter
              (fun msg =>
                ! [Status.sent, Status.failed, Status.cancelled].contains msg.status)).length,
          (clearCompleted q).2.filter
            (fun msg =>
              ! [Status.sent, Status.failed, Status.cancelled].contains msg.status))
        = (0, (clearCompleted q).2)
    rw [List.filter_eq_self.mpr hall, Nat.sub_self]

/-- Claim C9: one dispatcher cycle selects at most 5 messages, in store
order (a sublist of the store), each of them passing the eligibility
filter; the filter holds exactly for `pending` messages whose schedule is
absent or due; and the batch is precisely the first five eligible messages
in order. -/
theorem dispatch_selection_spec :
    ∀ (now : Nat) (q : List QueuedMessage),
      (selectBatch now q).length ≤ 5 ∧
      (selectBatch now q).Sublist q ∧
      (selectBatch now q).all (isEligible now) = true ∧
      (∀ m : QueuedMessage, isEligible now m = true ↔
        (m.status = Status.pending ∧
          (m.scheduledFor = none ∨ ∃ t, m.scheduledFor = some t ∧ t ≤ now))) ∧
      selectBatch now q ++ (q.filter (isEligible now)).drop 5 = q.filter (isEligible now) := by
  intro now q
  refine ⟨?_, ?_, ?_, ?_, ?_⟩
  · show ((q.filter (isEligible now)).take 5).length ≤ 5
    rw [List.length_take]
    exact Nat.min_le_left _ _
  · exact ((q.filter (isEligible now)).take_sublist 5).trans (List.filter_sublist q)
  · rw [List.all_eq_true]
    intro m hm
    exact List.of_mem_filter (List.mem_of_mem_take hm)
  · intro m
    unfold isEligible
    rcases hs : m.scheduledFor with _ | t <;> simp [hs]
  · exact List.take_append_drop 5 (q.filter (isEligible now))

/-- Claim C10: `stats().total` counts every stored message, the four
category counters count their own status only (the counting switch has no
`cancelled` arm), so the four categories sum to `total` minus the number of
cancelled messages still stored; a store holding one cancelled message
shows the four counters need not sum to `total`. -/
theorem stats_spec :
    (∀ q : List QueuedMessage,
      (getStats q).total = q.length ∧
      (getStats q).pending + (getStats q).sending + (getStats q).sent + (getStats q).failed
          + q.countP (fun m => m.status == Status.cancelled) = q.length) ∧
    getStats [{ mkMsg "c1" Priority.normal none with status := Status.cancelled }]
      = ⟨0, 0, 0, 0, 1⟩ := by
  refine ⟨?_, by decide⟩
  intro q
  refine ⟨rfl, ?_⟩
  induction q with
  | nil => rfl
  | cons x xs ih =>
    simp only [getStats, List.countP_cons, List.length_cons] at *
    cases hx : x.status <;> simp [hx] <;> omega

/-- Claim C5: assuming the store's ids are unique (they are assigned by
`generateId` at enqueue time), `cancelMessage` returns true exactly when a
message with the given id exists with status `pending`; on success exactly
that message's status becomes `cancelled` (everything else in place); on
failure — wrong status or unknown id — the store is returned unchanged. -/
theorem cancel_spec (q : List QueuedMessage) (messageId : String)
    (hnodup : (q.map (fun m => m.id)).Nodup) :
    ((cancelMessage messageId q).1 = true ↔
      ∃ m, m ∈ q ∧ m.id = messageId ∧ m.status = Status.pending) ∧
    ((cancelMessage messageId q).1 = true →
      ∃ l r msg, q = l ++ msg :: r ∧ msg.id = messageId ∧ msg.status = Status.pending ∧
        (cancelMessage messageId q).2 = l ++ { msg with status := Status.cancelled } :: r) ∧
    ((cancelMessage messageId q).1 = false → (cancelMessage messageId q).2 = q) := by
  induction q with
  | nil =>
    refine ⟨by simp [cancelMessage], by simp [cancelMessage], fun _ => rfl⟩
  | cons x xs ih =>
    rw [List.map_cons, List.nodup_cons] at hnodup
    obtain ⟨hxnin, hnd⟩ := hnodup
    have ihs := ih hnd
    by_cases hid : x.id = messageId
    · by_cases hst : x.status = Status.pending
      · have hres : cancelMessage messageId (x :: xs) =
            (true, { x with status := Status.cancelled } :: xs) := by
          simp [cancelMessage, hid, hst]
        refine ⟨?_, ?_, ?_⟩
        · rw [hres]
          exact ⟨fun _ => ⟨x, List.mem_cons_self x xs, hid, hst⟩, fun _ => rfl⟩
        · rw [hres]
          exact fun _ => ⟨[], xs, x, rfl, hid, hst, rfl⟩
        · rw [hres]
          intro h
          simp at h
      · have hres : cancelMessage messageId (x :: xs) = (false, x :: xs) := by
          simp [cancelMessage, hid, hst]
        refine ⟨?_, ?_, ?_⟩
        · rw [hres]
          constructor
          · intro h
            simp at h
          · rintro ⟨m, hm, hmid, hmst⟩
            rcases List.mem_cons.mp hm with rfl | hmxs
            · exact absurd hmst hst
            · exact absurd
                (List.mem_map.mpr ⟨m, hmxs, hmid.trans hid.symm⟩) hxnin
        · rw [hres]
          intro h
          simp at h
        · rw [hres]
          exact fun _ => rfl
    · have hres : cancelMessage messageId (x :: xs) =
          ((cancelMessage messageId xs).1, x :: (cancelMessage messageId xs).2) := by
        simp [cancelMessage, hid]
      refine ⟨?_, ?_, ?_⟩
      · rw [hres]
        show (cancelMessage messageId xs).1 = true ↔ _
        rw [ihs.1]
        constructor
        · rintro ⟨m, hm, hmid, hmst⟩
          exact ⟨m, List.mem_cons_of_mem x hm, hmid, hmst⟩
        · rintro ⟨m, hm, hmid, hmst⟩
          rcases List.mem_cons.mp hm with rfl | hmxs
          · exact absurd hmid hid
          · exact ⟨m, hmxs, hmid, hmst⟩
      · rw [hres]
        intro h
        obtain ⟨l, r, msg, heq, hmid, hmst, hr2⟩ := ihs.2.1 h
        refine ⟨x :: l, r, msg, ?_, hmid, hmst, ?_⟩
        · rw [heq]
          rfl
        · show x :: (cancelMessage messageId xs).2 = _
          rw [hr2]
          rfl
      · rw [hres]
        intro h
        show x :: (cancelMessage messageId xs).2 = x :: xs
        rw [ihs.2.2 h]

/-- Witness for `cancel_spec`: cancelling the only, `pending`, message of a
one-element store by its id succeeds. -/
theorem cancel_spec_witness :
    (cancelMessage "w1" [mkMsg "w1" Priority.normal none]).1 = true :=
  (cancel_spec [mkMsg "w1" Priority.normal none] "w1" (by simp)).1.mpr
    ⟨mkMsg "w1" Priority.normal none, by simp, rfl, rfl⟩

/-- The invariant of a freshly enqueued message: `pending`, `attempts = 0`,
positive retry budget (the UI callers pass `maxAttempts: 3`). -/
theorem msgInv_init (m0 : QueuedMessage) (hmax : 1 ≤ m0.maxAttempts)
    (hstat : m0.status = Status.pending) (hatt : m0.attempts = 0) : msgInv m0 :=
  ⟨hmax, by omega, fun _ => by omega, fun hf => by rw [hstat] at hf; simp at hf⟩

/-- The `catch` block preserves the per-message invariant. -/
theorem msgInv_handleFailure {m : QueuedMessage} (h1 : 1 ≤ m.maxAttempts)
    (h2 : m.attempts ≤ m.maxAttempts) : msgInv (handleFailure m) := by
  unfold handleFailure
  split <;> rename_i hcond
  · exact ⟨h1, h2, by intro hp; simp at hp, fun _ => Nat.le_antisymm h2 hcond⟩
  · exact ⟨h1, h2, fun _ => by show m.attempts < m.maxAttempts; omega,
      by intro hf; simp at hf⟩

/-- Every per-message mutation of the queue preserves the invariant. -/
theorem msgInv_step {m m2 : QueuedMessage} (hinv : msgInv m) (h : MsgStep m m2) :
    msgInv m2 := by
  obtain ⟨h1, h2, h3, h4⟩ := hinv
  cases h with
  | start hm =>
    exact ⟨h1, h3 hm, by intro hp; simp [processStart] at hp,
      by intro hf; simp [processStart] at hf⟩
  | resolve o hm =>
    cases o with
    | success =>
      exact ⟨h1, h2, by intro hp; simp [applyOutcome, attemptSend] at hp,
        by intro hf; simp [applyOutcome, attemptSend] at hf⟩
    | returnedFalse => exact msgInv_handleFailure h1 h2
    | threw => exact msgInv_handleFailure h1 h2
  | cancel hm =>
    exact ⟨h1, h2, by intro hp; simp at hp, by intro hf; simp at hf⟩
  | retryReset =>
    unfold retryResetMsg
    split <;> rename_i hc
    · exact ⟨h1, by show (0 : Nat) ≤ m.maxAttempts; omega,
        fun _ => by show (0 : Nat) < m.maxAttempts; omega,
        by intro hf; simp at hf⟩
    · exact ⟨h1, h2, h3, h4⟩

/-- The invariant holds in every state reachable from a state satisfying it. -/
theorem msgInv_reachable {m0 m : QueuedMessage} (hinv : msgInv m0)
    (hr : Relation.ReflTransGen MsgStep m0 m) : msgInv m := by
  induction hr with
  | refl => exact hinv
  | tail _ hstep ih => exact msgInv_step ih hstep

/-- Claim C3: in every state a message reaches from its enqueue state
(`pending`, `attempts = 0`, `maxAttempts ≥ 1`), the attempts counter —
a natural number, so never negative — stays within the budget, `failed`
forces `attempts = maxAttempts`, and a resolving transport attempt yields
`failed` exactly when it was not a success and the counter had reached the
budget. -/
theorem attempts_within_budget (m0 m : QueuedMessage)
    (hmax : 1 ≤ m0.maxAttempts) (hstat : m0.status = Status.pending)
    (hatt : m0.attempts = 0)
    (hr : Relation.ReflTransGen MsgStep m0 m) :
    m.attempts ≤ m.maxAttempts ∧
    (m.status = Status.failed → m.attempts = m.maxAttempts) ∧
    (∀ o : SendOutcome, m.status = Status.sending →
      ((applyOutcome m o).status = Status.failed ↔
        o ≠ SendOutcome.success ∧ m.attempts = m.maxAttempts)) := by
  obtain ⟨h1, h2, h3, h4⟩ := msgInv_reachable (msgInv_init m0 hmax hstat hatt) hr
  refine ⟨h2, h4, ?_⟩
  intro o hsend
  cases o with
  | success =>
    constructor
    · intro hcontra
      simp [applyOutcome, attemptSend] at hcontra
    · rintro ⟨hne, -⟩
      exact absurd rfl hne
  | returnedFalse =>
    rw [show applyOutcome m SendOutcome.returnedFalse = handleFailure m from rfl,
      handleFailure_status]
    constructor
    · intro hif
      by_cases hc : m.attempts ≥ m.maxAttempts
      · exact ⟨by simp, Nat.le_antisymm h2 hc⟩
      · rw [if_neg hc] at hif
        simp at hif
    · rintro ⟨-, heq⟩
      rw [if_pos (le_of_eq heq.symm)]
  | threw =>
    rw [show applyOutcome m SendOutcome.threw = handleFailure m from rfl,
      handleFailure_status]
    constructor
    · intro hif
      by_cases hc : m.attempts ≥ m.maxAttempts
      · exact ⟨by simp, Nat.le_antisymm h2 hc⟩
      · rw [if_neg hc] at hif
        simp at hif
    · rintro ⟨-, heq⟩
      rw [if_pos (le_of_eq heq.symm)]

/-- Witness for `attempts_within_budget`: a fresh message picked up once by
the dispatcher (one `start` step). -/
theorem attempts_within_budget_witness :
    (processStart (mkMsg "w2" Priority.normal none)).attempts ≤
        (processStart (mkMsg "w2" Priority.normal none)).maxAttempts ∧
    ((processStart (mkMsg "w2" Priority.normal none)).status = Status.failed →
      (processStart (mkMsg "w2" Priority.normal none)).attempts =
        (processStart (mkMsg "w2" Priority.normal none)).maxAttempts) ∧
    (∀ o : SendOutcome,
      (processStart (mkMsg "w2" Priority.normal none)).status = Status.sending →
      ((applyOutcome (processStart (mkMsg "w2" Priority.normal none)) o).status
          = Status.failed ↔
        o ≠ SendOutcome.success ∧
          (processStart (mkMsg "w2" Priority.normal none)).attempts =
            (processStart (mkMsg "w2" Priority.normal none)).maxAttempts)) :=
  attempts_within_budget (mkMsg "w2" Priority.normal none) _ (by decide) rfl rfl
    (Relation.ReflTransGen.single (MsgStep.start _ rfl))

/-- A message in a terminal status satisfying the invariant is left exactly
as it is by every further per-message step: in particular `retryResetMsg`
is a no-op on it, since `failed` forces `attempts = maxAttempts`. -/
theorem terminal_stuck {m m2 : QueuedMessage} (hinv : msgInv m)
    (hterm : terminalStatus m.status) (h : MsgStep m m2) : m2 = m := by
  obtain ⟨h1, h2, h3, h4⟩ := hinv
  cases h with
  | start hm =>
    rw [hm] at hterm
    rcases hterm with ht | ht | ht <;> simp at ht
  | resolve o hm =>
    rw [hm] at hterm
    rcases hterm with ht | ht | ht <;> simp at ht
  | cancel hm =>
    rw [hm] at hterm
    rcases hterm with ht | ht | ht <;> simp at ht
  | retryReset =>
    unfold retryResetMsg
    split <;> rename_i hc
    · obtain ⟨hfail, hlt⟩ := hc
      have heq := h4 hfail
      exact absurd hlt (by omega)
    · rfl

/-- Claim C7: along every sequence of queue operations and dispatch
outcomes, a message that has reached `sent`, `failed` or `cancelled` never
re-enters `pending` (nor any other status): terminal states are final. -/
theorem no_pending_reentry (m0 m m2 : QueuedMessage)
    (hmax : 1 ≤ m0.maxAttempts) (hstat : m0.status = Status.pending)
    (hatt : m0.attempts = 0)
    (hr : Relation.ReflTransGen MsgStep m0 m)
    (hterm : terminalStatus m.status)
    (hr2 : Relation.ReflTransGen MsgStep m m2) :
    m2.status ≠ Status.pending := by
  have hinv : msgInv m := msgInv_reachable (msgInv_init m0 hmax hstat hatt) hr
  have hm2 : m2 = m := by
    induction hr2 with
    | refl => rfl
    | tail _ hstep ih =>
      rw [ih] at hstep
      exact terminal_stuck hinv hterm hstep
  rw [hm2]
  rcases hterm with ht | ht | ht <;> rw [ht] <;> simp

/-- Witness for `no_pending_reentry`: a fresh message cancelled by the
caller (one `cancel` step) is in the terminal status `cancelled` and is not
`pending`. -/
theorem no_pending_reentry_witness :
    ({ mkMsg "w3" Priority.normal none with
        status := Status.cancelled } : QueuedMessage).status ≠ Status.pending :=
  no_pending_reentry (mkMsg "w3" Priority.normal none) _ _ (by decide) rfl rfl
    (Relation.ReflTransGen.single (MsgStep.cancel _ rfl))
    (Or.inr (Or.inr rfl)) Relation.ReflTransGen.refl
